import Mathlib

/-!
Shallow embedding of the NIFTY option-chain polling pipeline (`trr.py`) and
proofs about it: chain normalization (`process_option_chain`), the ATM strike
window (`filter_atm_range`), expiry selection (`get_nearest_expiries`), the
display projection (`prepare_display`), signal detection (`detect_signals`)
and the one-shot poll pass (`poll_once`).

Dataframes are embedded as lists of records, `pd.Timestamp` values as plain
calendar dates (they are only compared, grouped by year/month, and tested for
equality), numeric cells as rationals, and a cell that fails
`pd.to_numeric(errors="coerce")` as `none`.  `sort_values` is embedded as a
stable insertion sort on the same keys.
-/

namespace Trr

/-- Calendar dates as (year, month, day) triples, compared lexicographically. -/
structure Date where
  year : Nat
  month : Nat
  day : Nat
deriving DecidableEq

/-- Lexicographic order on dates (the order `pd.Timestamp` comparison gives). -/
def dateLe (a b : Date) : Prop :=
  a.year < b.year ∨
    (a.year = b.year ∧ (a.month < b.month ∨ (a.month = b.month ∧ a.day ≤ b.day)))

/-- Strict lexicographic order on dates. -/
def dateLt (a b : Date) : Prop :=
  a.year < b.year ∨
    (a.year = b.year ∧ (a.month < b.month ∨ (a.month = b.month ∧ a.day < b.day)))

instance (a b : Date) : Decidable (dateLe a b) := by
  unfold dateLe; infer_instance

instance (a b : Date) : Decidable (dateLt a b) := by
  unfold dateLt; infer_instance

theorem dateLe_refl (a : Date) : dateLe a a := by
  unfold dateLe; omega

theorem dateLe_trans {a b c : Date} (h1 : dateLe a b) (h2 : dateLe b c) : dateLe a c := by
  unfold dateLe at *; omega

theorem dateLe_total (a b : Date) : dateLe a b ∨ dateLe b a := by
  unfold dateLe; omega

theorem dateLe_antisymm {a b : Date} (h1 : dateLe a b) (h2 : dateLe b a) : a = b := by
  cases a; cases b
  simp only [dateLe] at h1 h2
  simp only [Date.mk.injEq]
  omega

theorem dateLt_or_eq_of_dateLe {a b : Date} (h : dateLe a b) : dateLt a b ∨ a = b := by
  cases a; cases b
  simp only [dateLe, dateLt, Date.mk.injEq] at *
  omega

theorem dateLe_of_dateLt {a b : Date} (h : dateLt a b) : dateLe a b := by
  unfold dateLe dateLt at *; omega

theorem dateLt_asymm {a b : Date} (h : dateLt a b) : ¬ dateLt b a := by
  unfold dateLt at *; omega

theorem dateLt_trans {a b c : Date} (h1 : dateLt a b) (h2 : dateLt b c) : dateLt a c := by
  unfold dateLt at *; omega

instance : IsTotal Date dateLe := ⟨dateLe_total⟩

instance : IsTrans Date dateLe := ⟨fun _ _ _ => dateLe_trans⟩

instance : IsAntisymm Date dateLe := ⟨fun _ _ => dateLe_antisymm⟩

instance : IsRefl Date dateLe := ⟨dateLe_refl⟩

/-- Maximum of two dates (`max(a, b)`). -/
def maxDate (a b : Date) : Date := if dateLe a b then b else a

/-- Minimum of two dates (`min(a, b)`). -/
def minDate (a b : Date) : Date := if dateLe a b then a else b

/-- Maximum of a nonempty collection of dates, seed plus list. -/
def listMaxD (d : Date) (l : List Date) : Date := l.foldl maxDate d

/-- Minimum of a nonempty collection of dates, seed plus list. -/
def listMinD (d : Date) (l : List Date) : Date := l.foldl minDate d

/-- One raw option-chain row as the fetch returns it: the nine numeric columns
are loosely typed (`none` when `pd.to_numeric(errors="coerce")` would yield
NaN), the expiry is `none` when `pd.to_datetime(errors="coerce")` would yield
NaT, and `otherContent` stands for all remaining columns of the row. -/
structure RawRow where
  strike : Option ℚ
  expiryDate : Option Date
  callsOI : Option ℚ
  callsChngOI : Option ℚ
  callsLTP : Option ℚ
  callsNetChng : Option ℚ
  putsOI : Option ℚ
  putsChngOI : Option ℚ
  putsLTP : Option ℚ
  putsNetChng : Option ℚ
  otherContent : String
deriving DecidableEq

/-- A normalized option-chain row: all numeric cells are rationals and the
expiry parsed to a date. -/
structure Row where
  strike : ℚ
  expiryDate : Date
  callsOI : ℚ
  callsChngOI : ℚ
  callsLTP : ℚ
  callsNetChng : ℚ
  putsOI : ℚ
  putsChngOI : ℚ
  putsLTP : ℚ
  putsNetChng : ℚ
  otherContent : String
deriving DecidableEq

/-- Configuration constant `OI_THRESHOLD = 50_0000`. -/
def OI_THRESHOLD : ℚ := 500000

/-- Configuration constant `STRIKE_OFFSET = 200`. -/
def STRIKE_OFFSET : ℚ := 200

/-- Configuration constant `STRIKE_RANGE = 250`. -/
def STRIKE_RANGE : ℚ := 250

/-- Effect of `pd.to_numeric(errors="coerce").fillna(0)` on one cell. -/
def coerceNum (v : Option ℚ) : ℚ := v.getD 0

/-- Normalization, `process_option_chain`: coerce the nine numeric columns (unparseable cells
become 0), parse the expiry column and drop the rows whose expiry does not
parse (`dropna(subset=["Expiry_Date"])`); everything else is carried over. -/
def process_option_chain (raw : List RawRow) : List Row :=
  raw.filterMap fun r =>
    match r.expiryDate with
    | none => none
    | some d =>
        some { strike := coerceNum r.strike
               expiryDate := d
               callsOI := coerceNum r.callsOI
               callsChngOI := coerceNum r.callsChngOI
               callsLTP := coerceNum r.callsLTP
               callsNetChng := coerceNum r.callsNetChng
               putsOI := coerceNum r.putsOI
               putsChngOI := coerceNum r.putsChngOI
               putsLTP := coerceNum r.putsLTP
               putsNetChng := coerceNum r.putsNetChng
               otherContent := r.otherContent }

/-- Strike windowing, `filter_atm_range`: keep the strikes within `(spot // 50) * 50 ± 250`;
fail open (return the input unchanged) when the spot is not positive or the
table is empty. -/
def filter_atm_range (df : List Row) (spot : ℚ) : List Row :=
  if spot ≤ 0 ∨ df = [] then df
  else
    let lower : ℚ := (⌊spot / 50⌋ : ℚ) * 50 - STRIKE_RANGE
    let upper : ℚ := (⌊spot / 50⌋ : ℚ) * 50 + STRIKE_RANGE
    df.filter fun r => decide (lower ≤ r.strike) && decide (r.strike ≤ upper)

/-- The distinct expiry dates of a table, sorted ascending
(`sorted(pd.to_datetime(df["Expiry_Date"].unique()))`). -/
def distinctSortedDates (df : List Row) : List Date :=
  List.insertionSort dateLe ((df.map fun r => r.expiryDate).dedup)

/-- The distinct (year, month) keys of a date list, in first-appearance order
(the keys of the `month_groups` dict). -/
def monthKeys (l : List Date) : List (Nat × Nat) :=
  (l.map fun d => (d.year, d.month)).dedup

/-- For each (year, month) group of the date list, the group's max date
(`[max(v) for v in month_groups.values()]`). -/
def monthGroupMaxes (l : List Date) : List Date :=
  (monthKeys l).filterMap fun k =>
    match l.filter fun d => decide ((d.year, d.month) = k) with
    | [] => none
    | d :: ds => some (listMaxD d ds)

/-- Value of `max([max(v) for v in month_groups.values()])`, `none` on an empty list. -/
def monthlyOf (l : List Date) : Option Date :=
  match monthGroupMaxes l with
  | [] => none
  | m :: ms => some (listMaxD m ms)

/-- Expiry selection, `get_nearest_expiries`: empty table gives no expiries, a single distinct
expiry is returned alone, otherwise the sorted deduplicated pair of
`weekly = all_exp[0]` and `monthly = max([max(v) for v in month_groups.values()])`
(`sorted(list(set([weekly, monthly])))`). -/
def get_nearest_expiries (df : List Row) : List Date :=
  match distinctSortedDates df with
  | [] => []
  | [d] => [d]
  | d :: ds =>
      let weekly := d
      let monthly := (monthlyOf (d :: ds)).getD d
      List.insertionSort dateLe ([weekly, monthly].dedup)

/-- A display row: the ten projected columns of `prepare_display`, in display
order `[Expiry_Date, CE ΔLTP, CE LTP, CE ΔOI, CE OI, Strike, PE OI, PE ΔOI,
PE LTP, PE ΔLTP]`. -/
structure DRow where
  expiryDate : Date
  ceNetChng : ℚ
  ceLTP : ℚ
  ceChngOI : ℚ
  ceOI : ℚ
  strike : ℚ
  peOI : ℚ
  peChngOI : ℚ
  peLTP : ℚ
  peNetChng : ℚ
deriving DecidableEq

/-- The rename-and-select step of `prepare_display` applied to one row. -/
def toDRow (r : Row) : DRow :=
  { expiryDate := r.expiryDate
    ceNetChng := r.callsNetChng
    ceLTP := r.callsLTP
    ceChngOI := r.callsChngOI
    ceOI := r.callsOI
    strike := r.strike
    peOI := r.putsOI
    peChngOI := r.putsChngOI
    peLTP := r.putsLTP
    peNetChng := r.putsNetChng }

/-- Undo the display renames: put a display row's cells back under the source
column names (columns the projection dropped are left empty). -/
def undoRename (d : DRow) : Row :=
  { strike := d.strike
    expiryDate := d.expiryDate
    callsOI := d.ceOI
    callsChngOI := d.ceChngOI
    callsLTP := d.ceLTP
    callsNetChng := d.ceNetChng
    putsOI := d.peOI
    putsChngOI := d.peChngOI
    putsLTP := d.peLTP
    putsNetChng := d.peNetChng
    otherContent := "" }

/-- The `sort_values(["Expiry_Date", "Strike"])` key order on display rows. -/
def drowLe (a b : DRow) : Prop :=
  dateLt a.expiryDate b.expiryDate ∨
    (a.expiryDate = b.expiryDate ∧ a.strike ≤ b.strike)

instance (a b : DRow) : Decidable (drowLe a b) := by
  unfold drowLe; infer_instance

theorem drowLe_total (a b : DRow) : drowLe a b ∨ drowLe b a := by
  unfold drowLe
  rcases dateLe_total a.expiryDate b.expiryDate with h | h
  · rcases dateLt_or_eq_of_dateLe h with h' | h'
    · exact Or.inl (Or.inl h')
    · rcases le_total a.strike b.strike with hs | hs
      · exact Or.inl (Or.inr ⟨h', hs⟩)
      · exact Or.inr (Or.inr ⟨h'.symm, hs⟩)
  · rcases dateLt_or_eq_of_dateLe h with h' | h'
    · exact Or.inr (Or.inl h')
    · rcases le_total a.strike b.strike with hs | hs
      · exact Or.inl (Or.inr ⟨h'.symm, hs⟩)
      · exact Or.inr (Or.inr ⟨h', hs⟩)

theorem drowLe_trans {a b c : DRow} (h1 : drowLe a b) (h2 : drowLe b c) : drowLe a c := by
  unfold drowLe at *
  rcases h1 with h1 | ⟨e1, s1⟩
  · rcases h2 with h2 | ⟨e2, s2⟩
    · exact Or.inl (dateLt_trans h1 h2)
    · exact Or.inl (e2 ▸ h1)
  · rcases h2 with h2 | ⟨e2, s2⟩
    · exact Or.inl (e1 ▸ h2)
    · exact Or.inr ⟨e1.trans e2, s1.trans s2⟩

instance : IsTotal DRow drowLe := ⟨drowLe_total⟩

instance : IsTrans DRow drowLe := ⟨fun _ _ _ => drowLe_trans⟩

/-- Display projection, `prepare_display`: rename/select the ten display columns and sort by
`(Expiry_Date, Strike)` ascending. -/
def prepare_display (df : List Row) : List DRow :=
  List.insertionSort drowLe (df.map toDRow)

/-- One cell of a display row (a date or a number). -/
inductive Cell where
  | dateC : Date → Cell
  | numC : ℚ → Cell
deriving DecidableEq

/-- The ordered cells of a display row, left to right as displayed. -/
def DRow.cells (d : DRow) : List Cell :=
  [Cell.dateC d.expiryDate, Cell.numC d.ceNetChng, Cell.numC d.ceLTP,
   Cell.numC d.ceChngOI, Cell.numC d.ceOI, Cell.numC d.strike,
   Cell.numC d.peOI, Cell.numC d.peChngOI, Cell.numC d.peLTP,
   Cell.numC d.peNetChng]

/-- The display column names, in display order. -/
def displayColumns : List String :=
  ["Expiry_Date", "CE ΔLTP", "CE LTP", "CE ΔOI", "CE OI",
   "Strike", "PE OI", "PE ΔOI", "PE LTP", "PE ΔLTP"]

/-- One signal-log record, columns `Timestamp, Signal, Strike, Reason`. -/
structure Signal where
  timestamp : String
  label : String
  strike : ℚ
  reason : String
deriving DecidableEq

/-- Signal detection, `detect_signals`: if any projected row has `CE ΔOI ≤ -OI_THRESHOLD`, append
one BUY-CE signal built from the first such row; independently the same for
`PE ΔOI` with BUY-PE; return the new signal log (the source then rewrites the
whole durable log with exactly this content). -/
def detect_signals (now : String) (df : List DRow) (sdf : List Signal) : List Signal :=
  let callDrop := df.filter fun r => decide (r.ceChngOI ≤ -OI_THRESHOLD)
  let putDrop := df.filter fun r => decide (r.peChngOI ≤ -OI_THRESHOLD)
  let s1 :=
    match callDrop with
    | [] => sdf
    | r :: _ =>
        let strike := r.strike + STRIKE_OFFSET
        sdf ++ [{ timestamp := now, label := "BUY CE " ++ toString strike,
                  strike := strike, reason := "CALL OI ↓ " ++ toString OI_THRESHOLD }]
  match putDrop with
  | [] => s1
  | r :: _ =>
      let strike := r.strike + STRIKE_OFFSET
      s1 ++ [{ timestamp := now, label := "BUY PE " ++ toString strike,
               strike := strike, reason := "PUT OI ↓ " ++ toString OI_THRESHOLD }]

/-- The process-wide state the pipeline mutates: the in-memory and on-disk
snapshot, the in-memory and on-disk signal log, and the `last_poll_time`,
`expiry_list`, `latest_spot` globals. -/
structure AppState where
  latestSnapshot : List DRow
  snapshotDisk : List DRow
  signalsMem : List Signal
  signalsDisk : List Signal
  lastPollTime : Option Nat
  expiryList : List Date
  latestSpot : ℚ
deriving DecidableEq

/-- A durable write performed during a poll pass, in execution order. -/
inductive PollEvent where
  | signalsDiskWrite : List Signal → PollEvent
  | snapshotDiskWrite : List DRow → PollEvent
deriving DecidableEq

/-- The pure front of `poll_once`: normalize, fetch-assign the spot, window to
ATM, select expiries, keep only rows of selected expiries, project for display
and store the in-memory snapshot.  Returns the updated state and the projected
table. -/
def pollCompute (raw : List RawRow) (spotFetched : ℚ) (st : AppState) :
    AppState × List DRow :=
  let df1 := process_option_chain raw
  let st1 := { st with latestSpot := spotFetched }
  let df2 := filter_atm_range df1 spotFetched
  let exps := get_nearest_expiries df2
  let st2 := { st1 with expiryList := exps }
  let df3 := df2.filter fun r => decide (r.expiryDate ∈ exps)
  let df4 := prepare_display df3
  ({ st2 with latestSnapshot := df4 }, df4)

/-- The `detect_signals(df)` step of `poll_once`: append any signals and write
the whole signal log durably (`signals_df.to_csv`). -/
def pollSignalsStage (now : String) (x : AppState × List DRow) :
    (AppState × List DRow) × List PollEvent :=
  let newLog := detect_signals now x.2 x.1.signalsMem
  (({ x.1 with signalsMem := newLog, signalsDisk := newLog }, x.2),
   [PollEvent.signalsDiskWrite newLog])

/-- The tail of `poll_once`: set `last_poll_time` and write the snapshot
durably (`df.to_csv(SNAPSHOT_CSV)`). -/
def pollFinishStage (nowT : Nat) (x : AppState × List DRow) :
    (AppState × List DRow) × List PollEvent :=
  (({ x.1 with lastPollTime := some nowT, snapshotDisk := x.2 }, x.2),
   [PollEvent.snapshotDiskWrite x.2])

/-- The poll pass `poll_once`, instrumented with the ordered list of durable writes it
performs.  `fetched = none` embeds `nse_live_option_chain` returning a
non-dataframe; the guard `if not isinstance(df, pd.DataFrame) or df.empty`
raises before any state is touched. -/
def poll_once_traced (fetched : Option (List RawRow)) (spotFetched : ℚ)
    (now : String) (nowT : Nat) (st : AppState) :
    (AppState × Except String (List DRow)) × List PollEvent :=
  match fetched with
  | none => ((st, Except.error "Empty option chain"), [])
  | some raw =>
      if raw = [] then ((st, Except.error "Empty option chain"), [])
      else
        let a := pollCompute raw spotFetched st
        let b := pollSignalsStage now a
        let c := pollFinishStage nowT b.1
        ((c.1.1, Except.ok c.1.2), b.2 ++ c.2)

/-- One-shot pipeline pass `poll_once` over the fetched chain and spot. -/
def poll_once (fetched : Option (List RawRow)) (spotFetched : ℚ)
    (now : String) (nowT : Nat) (st : AppState) :
    AppState × Except String (List DRow) :=
  (poll_once_traced fetched spotFetched now nowT st).1

/-- The earliest-and-latest selector the spec says the expiry selection
degenerates to: the sorted deduplicated pair of the minimum and maximum of
the given dates. -/
def specEarliestLatest (dates : List Date) : List Date :=
  match dates with
  | [] => []
  | d :: ds => List.insertionSort dateLe ([listMinD d ds, listMaxD d ds].dedup)

/-- A normalized row holding a given strike, on the weekly expiry. -/
def rowAtStrike (q : ℚ) : Row := ⟨q, ⟨2025, 1, 2⟩, 0, 0, 0, 0, 0, 0, 0, 0, ""⟩

/-- A normalized row holding a given expiry date, at an in-window strike. -/
def rowWithDate (d : Date) : Row := ⟨24300, d, 0, 0, 0, 0, 0, 0, 0, 0, ""⟩

/-- Four expiries spanning two months: 2025-01-02, 2025-01-09, 2025-01-30,
2025-02-27. -/
def exampleRows4 : List Row :=
  [rowWithDate ⟨2025, 1, 2⟩, rowWithDate ⟨2025, 1, 9⟩,
   rowWithDate ⟨2025, 1, 30⟩, rowWithDate ⟨2025, 2, 27⟩]

/-- A table holding the single expiry 2025-01-02. -/
def exampleRows1 : List Row := [rowWithDate ⟨2025, 1, 2⟩]

/-- A raw row fully parseable, strike 24100 (inside the ATM window for spot
24310), expiry 2025-01-02. -/
def cexRow1 : RawRow :=
  ⟨some 24100, some ⟨2025, 1, 2⟩, some 0, some 0, some 0, some 0,
   some 0, some 0, some 0, some 0, ""⟩

/-- A raw row fully parseable, strike 30000 (outside the ATM window for spot
24310), expiry 2025-02-27. -/
def cexRow2 : RawRow :=
  ⟨some 30000, some ⟨2025, 2, 27⟩, some 0, some 0, some 0, some 0,
   some 0, some 0, some 0, some 0, ""⟩

/-- A raw chain whose monthly expiry only occurs outside the ATM window. -/
def cexRaw : List RawRow := [cexRow1, cexRow2]

/-- An initial process state: nothing persisted, no signals, no poll yet. -/
def st0 : AppState := ⟨[], [], [], [], none, [], 0⟩

/-- A distinct process state, to witness independence from prior state. -/
def stAlt : AppState :=
  ⟨[], [⟨⟨2024, 6, 1⟩, 0, 0, 0, 0, 1, 0, 0, 0, 0⟩], [], [⟨"x", "y", 1, "z"⟩],
   some 5, [⟨2024, 1, 1⟩], 1⟩

/-- A raw row whose numeric cells are partly unparseable but whose expiry
parses; its other content is kept. -/
def rawGood : RawRow :=
  ⟨some 24100, some ⟨2025, 1, 2⟩, none, some (-600000), none, none,
   some 1, some 2, some 3, some 4, "keep"⟩

/-- A raw row whose expiry is unparseable. -/
def rawBadExpiry : RawRow :=
  ⟨some 24200, none, some 5, some 6, some 7, some 8,
   some 9, some 10, some 11, some 12, "dropme"⟩

/-! ## Theorems -/

theorem find?_eq_head?_filter {α : Type} (p : α → Bool) :
    ∀ l : List α, l.find? p = (l.filter p).head?
  | [] => rfl
  | a :: l => by
    by_cases h : p a = true
    · rw [List.find?_cons_of_pos _ h, List.filter_cons_of_pos h]
      rfl
    · rw [List.find?_cons_of_neg _ h, List.filter_cons_of_neg h]
      exact find?_eq_head?_filter p l

/-- C1: `detect_signals` appends to the log exactly one call signal when some
row has call OI-change at most `-500000` — built from the first such row in
table order, with strike field and labelled strike `strike + 200` and label
`BUY CE <strike+200>` — and none otherwise; independently and identically for
puts with `BUY PE <strike+200>`; so at most one signal per side is ever
appended, and a side with no breaching row contributes nothing, the log
content staying unchanged when neither side breaches. -/
theorem detect_signals_spec (now : String) (df : List DRow) (sdf : List Signal) :
    detect_signals now df sdf =
      sdf
        ++ (((df.find? fun r => decide (r.ceChngOI ≤ -OI_THRESHOLD)).map fun r =>
              { timestamp := now
                label := "BUY CE " ++ toString (r.strike + STRIKE_OFFSET)
                strike := r.strike + STRIKE_OFFSET
                reason := "CALL OI ↓ " ++ toString OI_THRESHOLD : Signal }).toList)
        ++ (((df.find? fun r => decide (r.peChngOI ≤ -OI_THRESHOLD)).map fun r =>
              { timestamp := now
                label := "BUY PE " ++ toString (r.strike + STRIKE_OFFSET)
                strike := r.strike + STRIKE_OFFSET
                reason := "PUT OI ↓ " ++ toString OI_THRESHOLD : Signal }).toList) := by
  unfold detect_signals
  rw [find?_eq_head?_filter, find?_eq_head?_filter]
  cases hC : df.filter fun r => decide (r.ceChngOI ≤ -OI_THRESHOLD) <;>
    cases hP : df.filter fun r => decide (r.peChngOI ≤ -OI_THRESHOLD) <;>
      simp only [List.head?, Option.map_none', Option.map_some', Option.toList,
        List.append_nil, List.append_assoc]

/-- C2: for a positive spot, `filter_atm_range` keeps exactly the rows whose
strike lies in the inclusive window `(spot // 50) * 50 ± 250` (content and
order untouched, being a plain filter); for a non-positive spot or an empty
table it returns the input unchanged; and for spot 24310 the window is
`[24050, 24550]`. -/
theorem filter_atm_range_spec (df : List Row) (spot : ℚ) :
    (0 < spot →
      filter_atm_range df spot =
        df.filter fun r =>
          decide ((⌊spot / 50⌋ : ℚ) * 50 - 250 ≤ r.strike) &&
            decide (r.strike ≤ (⌊spot / 50⌋ : ℚ) * 50 + 250))
    ∧ (0 < spot → ∀ r : Row,
        r ∈ filter_atm_range df spot ↔
          r ∈ df ∧ (⌊spot / 50⌋ : ℚ) * 50 - 250 ≤ r.strike ∧
            r.strike ≤ (⌊spot / 50⌋ : ℚ) * 50 + 250)
    ∧ ((spot ≤ 0 ∨ df = []) → filter_atm_range df spot = df)
    ∧ (⌊(24310 : ℚ) / 50⌋ : ℚ) * 50 - 250 = 24050
    ∧ (⌊(24310 : ℚ) / 50⌋ : ℚ) * 50 + 250 = 24550 := by
  have hfloor : (⌊(24310 : ℚ) / 50⌋ : ℤ) = 486 := by norm_num
  have hmain : 0 < spot →
      filter_atm_range df spot =
        df.filter fun r =>
          decide ((⌊spot / 50⌋ : ℚ) * 50 - 250 ≤ r.strike) &&
            decide (r.strike ≤ (⌊spot / 50⌋ : ℚ) * 50 + 250) := by
    intro h
    by_cases hdf : df = []
    · subst hdf; simp [filter_atm_range]
    · unfold filter_atm_range
      rw [if_neg (by push_neg; exact ⟨h, hdf⟩)]
      simp only [show STRIKE_RANGE = (250 : ℚ) from rfl]
  refine ⟨hmain, ?_, ?_, ?_, ?_⟩
  · intro h r
    rw [hmain h]
    simp [List.mem_filter, and_assoc]
  · intro h
    unfold filter_atm_range
    rw [if_pos h]
  · rw [hfloor]; norm_num
  · rw [hfloor]; norm_num

unseal Rat.add Rat.sub Rat.mul Rat.inv in
theorem filter_atm_range_spec_witness :
    (0 < (24310 : ℚ)) ∧
      filter_atm_range [rowAtStrike 24000, rowAtStrike 24100] 24310 =
        [rowAtStrike 24100] := by
  refine ⟨by norm_num, ?_⟩
  rw [(filter_atm_range_spec [rowAtStrike 24000, rowAtStrike 24100] 24310).1 (by norm_num)]
  decide

/-- C4: a fetch that yields no table (`none`) or an empty table makes the
pipeline pass fail with the `Empty option chain` error while the whole
process state — durable snapshot, signal log in memory and on disk, spot,
expiry set and last-poll time — is left exactly as it was. -/
theorem poll_once_empty_chain (spotF : ℚ) (now : String) (nowT : Nat) (st : AppState) :
    poll_once none spotF now nowT st = (st, Except.error "Empty option chain")
    ∧ poll_once (some []) spotF now nowT st = (st, Except.error "Empty option chain") :=
  ⟨rfl, rfl⟩

theorem process_option_chain_length (raw : List RawRow) :
    (process_option_chain raw).length =
      (raw.filter fun r => r.expiryDate.isSome).length := by
  induction raw with
  | nil => rfl
  | cons r rs ih =>
    cases hr : r.expiryDate with
    | none =>
      simpa [process_option_chain, List.filterMap_cons, List.filter_cons, hr,
        Option.isSome] using ih
    | some d =>
      simpa [process_option_chain, List.filterMap_cons, List.filter_cons, hr,
        Option.isSome] using ih

/-- C5: normalization is total and drops no row for numeric reasons — the
output keeps exactly the rows whose expiry parses, every numeric cell's
unparseable value is replaced by 0, and all other row content is preserved
unchanged. -/
theorem process_option_chain_spec (raw : List RawRow) :
    (process_option_chain raw).length = (raw.filter fun r => r.expiryDate.isSome).length
    ∧ (∀ r ∈ raw, ∀ d : Date, r.expiryDate = some d →
        ({ strike := r.strike.getD 0, expiryDate := d, callsOI := r.callsOI.getD 0,
           callsChngOI := r.callsChngOI.getD 0, callsLTP := r.callsLTP.getD 0,
           callsNetChng := r.callsNetChng.getD 0, putsOI := r.putsOI.getD 0,
           putsChngOI := r.putsChngOI.getD 0, putsLTP := r.putsLTP.getD 0,
           putsNetChng := r.putsNetChng.getD 0, otherContent := r.otherContent } : Row)
          ∈ process_option_chain raw)
    ∧ (∀ q ∈ process_option_chain raw, ∃ r ∈ raw,
        r.expiryDate = some q.expiryDate
        ∧ q.strike = r.strike.getD 0 ∧ q.callsOI = r.callsOI.getD 0
        ∧ q.callsChngOI = r.callsChngOI.getD 0 ∧ q.callsLTP = r.callsLTP.getD 0
        ∧ q.callsNetChng = r.callsNetChng.getD 0 ∧ q.putsOI = r.putsOI.getD 0
        ∧ q.putsChngOI = r.putsChngOI.getD 0 ∧ q.putsLTP = r.putsLTP.getD 0
        ∧ q.putsNetChng = r.putsNetChng.getD 0 ∧ q.otherContent = r.otherContent) := by
  refine ⟨process_option_chain_length raw, ?_, ?_⟩
  · intro r hr d hd
    refine List.mem_filterMap.mpr ⟨r, hr, ?_⟩
    rw [hd]
    rfl
  · intro q hq
    obtain ⟨r, hr, hf⟩ := List.mem_filterMap.mp hq
    cases hd : r.expiryDate with
    | none => rw [hd] at hf; cases hf
    | some d =>
      rw [hd] at hf
      have hq' : ({
          strike := coerceNum r.strike, expiryDate := d,
          callsOI := coerceNum r.callsOI, callsChngOI := coerceNum r.callsChngOI,
          callsLTP := coerceNum r.callsLTP, callsNetChng := coerceNum r.callsNetChng,
          putsOI := coerceNum r.putsOI, putsChngOI := coerceNum r.putsChngOI,
          putsLTP := coerceNum r.putsLTP, putsNetChng := coerceNum r.putsNetChng,
          otherContent := r.otherContent } : Row) = q := Option.some.inj hf
      subst hq'
      exact ⟨r, hr, hd, rfl, rfl, rfl, rfl, rfl, rfl, rfl, rfl, rfl, rfl⟩

unseal Rat.add Rat.sub Rat.mul Rat.inv in
theorem process_option_chain_spec_witness :
    (process_option_chain [rawGood, rawBadExpiry]).length =
        ([rawGood, rawBadExpiry].filter fun r => r.expiryDate.isSome).length
    ∧ ({ strike := 24100, expiryDate := ⟨2025, 1, 2⟩, callsOI := 0,
         callsChngOI := -600000, callsLTP := 0, callsNetChng := 0, putsOI := 1,
         putsChngOI := 2, putsLTP := 3, putsNetChng := 4,
         otherContent := "keep" } : Row)
        ∈ process_option_chain [rawGood, rawBadExpiry] := by
  refine ⟨(process_option_chain_spec [rawGood, rawBadExpiry]).1, ?_⟩
  exact (process_option_chain_spec [rawGood, rawBadExpiry]).2.1 rawGood
    (List.mem_cons_self _ _) ⟨2025, 1, 2⟩ rfl

/-- C7: the display projection is a pure reshape — its output rows carry
exactly the ten display columns in the order `[expiry, CE ΔLTP, CE LTP,
CE ΔOI, CE OI, Strike, PE OI, PE ΔOI, PE LTP, PE ΔLTP]`, the output is a
permutation of the renamed input rows (no value recomputed), it is sorted
ascending by `(expiry, strike)`, and projecting its own output again (after
undoing the renames) returns the same rows in the same order. -/
theorem prepare_display_spec (df : List Row) :
    List.Sorted drowLe (prepare_display df)
    ∧ (prepare_display df).Perm (df.map toDRow)
    ∧ (∀ r : Row, (toDRow r).cells =
        [Cell.dateC r.expiryDate, Cell.numC r.callsNetChng, Cell.numC r.callsLTP,
         Cell.numC r.callsChngOI, Cell.numC r.callsOI, Cell.numC r.strike,
         Cell.numC r.putsOI, Cell.numC r.putsChngOI, Cell.numC r.putsLTP,
         Cell.numC r.putsNetChng])
    ∧ displayColumns.length = 10
    ∧ (∀ d : DRow, d.cells.length = displayColumns.length)
    ∧ prepare_display ((prepare_display df).map undoRename) = prepare_display df := by
  refine ⟨List.sorted_insertionSort drowLe _, List.perm_insertionSort drowLe _,
    fun r => rfl, rfl, fun d => rfl, ?_⟩
  unfold prepare_display
  rw [List.map_map]
  have h1 : toDRow ∘ undoRename = id := funext fun d => rfl
  rw [h1, List.map_id]
  exact (List.sorted_insertionSort drowLe (df.map toDRow)).insertionSort_eq

theorem maxDate_left_le (a b : Date) : dateLe a (maxDate a b) := by
  by_cases h : dateLe a b
  · rw [maxDate, if_pos h]; exact h
  · rw [maxDate, if_neg h]; exact dateLe_refl a

theorem maxDate_right_le (a b : Date) : dateLe b (maxDate a b) := by
  by_cases h : dateLe a b
  · rw [maxDate, if_pos h]; exact dateLe_refl b
  · rw [maxDate, if_neg h]
    rcases dateLe_total a b with h' | h'
    · exact absurd h' h
    · exact h'

theorem maxDate_cases (a b : Date) : maxDate a b = a ∨ maxDate a b = b := by
  by_cases h : dateLe a b
  · rw [maxDate, if_pos h]; exact Or.inr rfl
  · rw [maxDate, if_neg h]; exact Or.inl rfl

theorem maxDate_le {a b c : Date} (ha : dateLe a c) (hb : dateLe b c) :
    dateLe (maxDate a b) c := by
  rcases maxDate_cases a b with h | h <;> rw [h] <;> assumption

theorem le_listMaxD (d : Date) (l : List Date) : dateLe d (listMaxD d l) := by
  induction l generalizing d with
  | nil => exact dateLe_refl d
  | cons x xs ih => exact dateLe_trans (maxDate_left_le d x) (ih (maxDate d x))

theorem mem_le_listMaxD {x : Date} :
    ∀ (d : Date) {l : List Date}, x ∈ l → dateLe x (listMaxD d l)
  | _, [], hx => absurd hx (List.not_mem_nil x)
  | d, y :: ys, hx => by
    rcases List.mem_cons.mp hx with rfl | h
    · exact dateLe_trans (maxDate_right_le d x) (le_listMaxD (maxDate d x) ys)
    · exact mem_le_listMaxD (maxDate d y) h

theorem mem_cons_le_listMaxD {x m0 : Date} {ms : List Date} (hx : x ∈ m0 :: ms) :
    dateLe x (listMaxD m0 ms) := by
  rcases List.mem_cons.mp hx with rfl | h
  · exact le_listMaxD x ms
  · exact mem_le_listMaxD m0 h

theorem listMaxD_mem : ∀ (d : Date) (l : List Date), listMaxD d l ∈ d :: l
  | _, [] => List.mem_singleton.mpr rfl
  | d, x :: xs => by
    have h := listMaxD_mem (maxDate d x) xs
    show listMaxD (maxDate d x) xs ∈ d :: x :: xs
    rcases List.mem_cons.mp h with he | he
    · rw [he]
      rcases maxDate_cases d x with hm | hm <;> rw [hm] <;> simp
    · exact List.mem_cons_of_mem _ (List.mem_cons_of_mem _ he)

theorem listMaxD_le {b : Date} :
    ∀ (d : Date) (l : List Date), dateLe d b → (∀ x ∈ l, dateLe x b) →
      dateLe (listMaxD d l) b
  | _, [], hd, _ => hd
  | d, x :: xs, hd, hl =>
    listMaxD_le (maxDate d x) xs
      (maxDate_le hd (hl x (List.mem_cons_self _ _)))
      fun y hy => hl y (List.mem_cons_of_mem _ hy)

theorem listMinD_eq_self : ∀ (d : Date) (l : List Date),
    (∀ x ∈ l, dateLe d x) → listMinD d l = d
  | _, [], _ => rfl
  | d, x :: xs, h => by
    have hx : minDate d x = d := by
      rw [minDate, if_pos (h x (List.mem_cons_self _ _))]
    show listMinD (minDate d x) xs = d
    rw [hx]
    exact listMinD_eq_self d xs fun y hy => h y (List.mem_cons_of_mem _ hy)

theorem monthKeys_mem {x : Date} {l : List Date} (hx : x ∈ l) :
    (x.year, x.month) ∈ monthKeys l := by
  unfold monthKeys
  exact List.mem_dedup.mpr (List.mem_map.mpr ⟨x, hx, rfl⟩)

theorem filter_key_ne_nil {x : Date} {l : List Date} (hx : x ∈ l) :
    l.filter (fun d => decide ((d.year, d.month) = (x.year, x.month))) ≠ [] := by
  intro hcon
  have h : x ∈ l.filter fun d => decide ((d.year, d.month) = (x.year, x.month)) :=
    List.mem_filter.mpr ⟨hx, by simp⟩
  rw [hcon] at h
  cases h

theorem mem_of_mem_monthGroupMaxes {x : Date} {l : List Date}
    (hx : x ∈ monthGroupMaxes l) : x ∈ l := by
  unfold monthGroupMaxes at hx
  obtain ⟨k, _, hfk⟩ := List.mem_filterMap.mp hx
  cases hfl : l.filter fun d => decide ((d.year, d.month) = k) with
  | nil => rw [hfl] at hfk; cases hfk
  | cons e es =>
    rw [hfl] at hfk
    have h2 : listMaxD e es = x := Option.some.inj hfk
    have h3 : listMaxD e es ∈ e :: es := listMaxD_mem e es
    rw [h2] at h3
    rw [← hfl] at h3
    exact List.mem_of_mem_filter h3

theorem exists_group_max_ge {l : List Date} {x : Date} (hx : x ∈ l) :
    ∃ g ∈ monthGroupMaxes l, dateLe x g := by
  have hk := monthKeys_mem hx
  cases hfl : l.filter fun d => decide ((d.year, d.month) = (x.year, x.month)) with
  | nil => exact absurd hfl (filter_key_ne_nil hx)
  | cons e es =>
    refine ⟨listMaxD e es, ?_, ?_⟩
    · unfold monthGroupMaxes
      refine List.mem_filterMap.mpr ⟨(x.year, x.month), hk, ?_⟩
      rw [hfl]
    · have h : x ∈ e :: es := by
        rw [← hfl]
        exact List.mem_filter.mpr ⟨hx, by simp⟩
      exact mem_cons_le_listMaxD h

theorem monthGroupMaxes_ne_nil {l : List Date} (h : l ≠ []) :
    monthGroupMaxes l ≠ [] := by
  obtain ⟨x, xs, rfl⟩ := List.exists_cons_of_ne_nil h
  obtain ⟨g, hg, _⟩ := exists_group_max_ge (List.mem_cons_self x xs)
  intro hcon
  rw [hcon] at hg
  cases hg

theorem monthlyOf_eq_global_max (d : Date) (ds : List Date) :
    monthlyOf (d :: ds) = some (listMaxD d ds) := by
  cases hmg : monthGroupMaxes (d :: ds) with
  | nil => exact absurd hmg (monthGroupMaxes_ne_nil (List.cons_ne_nil d ds))
  | cons m0 ms =>
    unfold monthlyOf
    rw [hmg]
    show some (listMaxD m0 ms) = some (listMaxD d ds)
    congr 1
    apply dateLe_antisymm
    · refine listMaxD_le m0 ms ?_ ?_
      · have h : m0 ∈ monthGroupMaxes (d :: ds) := by
          rw [hmg]; exact List.mem_cons_self _ _
        exact mem_cons_le_listMaxD (mem_of_mem_monthGroupMaxes h)
      · intro y hy
        have h : y ∈ monthGroupMaxes (d :: ds) := by
          rw [hmg]; exact List.mem_cons_of_mem _ hy
        exact mem_cons_le_listMaxD (mem_of_mem_monthGroupMaxes h)
    · obtain ⟨g, hg, hge⟩ := exists_group_max_ge (listMaxD_mem d ds)
      refine dateLe_trans hge (mem_cons_le_listMaxD ?_)
      rw [← hmg]
      exact hg

theorem global_max_mem_monthGroupMaxes (d : Date) (ds : List Date) :
    listMaxD d ds ∈ monthGroupMaxes (d :: ds) := by
  cases hmg : monthGroupMaxes (d :: ds) with
  | nil => exact absurd hmg (monthGroupMaxes_ne_nil (List.cons_ne_nil d ds))
  | cons m0 ms =>
    have h1 := monthlyOf_eq_global_max d ds
    unfold monthlyOf at h1
    rw [hmg] at h1
    have h2 : listMaxD m0 ms = listMaxD d ds := Option.some.inj h1
    rw [← h2]
    exact listMaxD_mem m0 ms

theorem monthGroupMaxes_le_global_max (d : Date) (ds : List Date) :
    ∀ e ∈ monthGroupMaxes (d :: ds), dateLe e (listMaxD d ds) :=
  fun _ he => mem_cons_le_listMaxD (mem_of_mem_monthGroupMaxes he)

/-- C3: over the distinct expiry dates of its input, `get_nearest_expiries`
returns nothing for zero dates, the date itself for exactly one, and
otherwise the sorted deduplicated pair of the minimum date (the weekly) and
the maximum over the per-(year, month) group maxima (the monthly); in
particular the four dates 2025-01-02/01-09/01-30/02-27 give
`[2025-01-02, 2025-02-27]` and the single date 2025-01-02 gives itself. -/
theorem get_nearest_expiries_spec (df : List Row) :
    (distinctSortedDates df = [] → get_nearest_expiries df = [])
    ∧ (∀ d, distinctSortedDates df = [d] → get_nearest_expiries df = [d])
    ∧ (∀ d ds, distinctSortedDates df = d :: ds → ds ≠ [] →
        (∀ e ∈ distinctSortedDates df, dateLe d e)
        ∧ (monthlyOf (d :: ds)).getD d ∈ monthGroupMaxes (d :: ds)
        ∧ (∀ e ∈ monthGroupMaxes (d :: ds), dateLe e ((monthlyOf (d :: ds)).getD d))
        ∧ get_nearest_expiries df =
            List.insertionSort dateLe ([d, (monthlyOf (d :: ds)).getD d].dedup))
    ∧ get_nearest_expiries exampleRows4 = [⟨2025, 1, 2⟩, ⟨2025, 2, 27⟩]
    ∧ get_nearest_expiries exampleRows1 = [⟨2025, 1, 2⟩] := by
  have hsort : List.Sorted dateLe (distinctSortedDates df) :=
    List.sorted_insertionSort dateLe _
  refine ⟨?_, ?_, ?_, by decide, by decide⟩
  · intro h
    unfold get_nearest_expiries
    rw [h]
  · intro d h
    unfold get_nearest_expiries
    rw [h]
  · intro d ds h hne
    obtain ⟨d2, ds', rfl⟩ := List.exists_cons_of_ne_nil hne
    have hm := monthlyOf_eq_global_max d (d2 :: ds')
    refine ⟨?_, ?_, ?_, ?_⟩
    · intro e he
      rw [h] at he
      rcases List.mem_cons.mp he with rfl | he'
      · exact dateLe_refl e
      · rw [h] at hsort
        exact List.rel_of_sorted_cons hsort e he'
    · rw [hm, Option.getD_some]
      exact global_max_mem_monthGroupMaxes d (d2 :: ds')
    · intro e he
      rw [hm, Option.getD_some]
      exact monthGroupMaxes_le_global_max d (d2 :: ds') e he
    · unfold get_nearest_expiries
      rw [h]

theorem get_nearest_expiries_spec_witness :
    get_nearest_expiries exampleRows4 =
      List.insertionSort dateLe
        ([⟨2025, 1, 2⟩,
          (monthlyOf [⟨2025, 1, 2⟩, ⟨2025, 1, 9⟩, ⟨2025, 1, 30⟩,
            ⟨2025, 2, 27⟩]).getD ⟨2025, 1, 2⟩].dedup) :=
  ((get_nearest_expiries_spec exampleRows4).2.2.1 ⟨2025, 1, 2⟩
    [⟨2025, 1, 9⟩, ⟨2025, 1, 30⟩, ⟨2025, 2, 27⟩] (by decide) (by decide)).2.2.2

/-- C8: for two or more distinct expiry dates, the grouped "monthly" value —
the maximum over per-(year, month) maxima — always equals the plain maximum
of all the dates, so `get_nearest_expiries` coincides with the spec-side
earliest-and-latest selector. -/
theorem get_nearest_expiries_refines (df : List Row)
    (h2 : 2 ≤ (distinctSortedDates df).length) :
    (∀ d ds, distinctSortedDates df = d :: ds →
        monthlyOf (d :: ds) = some (listMaxD d ds))
    ∧ get_nearest_expiries df = specEarliestLatest (distinctSortedDates df) := by
  constructor
  · intro d ds _
    exact monthlyOf_eq_global_max d ds
  · cases hd : distinctSortedDates df with
    | nil => rw [hd] at h2; simp at h2
    | cons d tail =>
      cases tail with
      | nil => rw [hd] at h2; simp at h2
      | cons d2 ds' =>
        have hsort : List.Sorted dateLe (distinctSortedDates df) :=
          List.sorted_insertionSort dateLe _
        rw [hd] at hsort
        unfold get_nearest_expiries specEarliestLatest
        rw [hd]
        show List.insertionSort dateLe ([d, (monthlyOf (d :: d2 :: ds')).getD d].dedup) =
          List.insertionSort dateLe ([listMinD d (d2 :: ds'), listMaxD d (d2 :: ds')].dedup)
        rw [monthlyOf_eq_global_max d (d2 :: ds'), Option.getD_some,
          listMinD_eq_self d (d2 :: ds') fun x hx => List.rel_of_sorted_cons hsort x hx]

theorem get_nearest_expiries_refines_witness :
    get_nearest_expiries exampleRows4 =
      specEarliestLatest (distinctSortedDates exampleRows4) :=
  (get_nearest_expiries_refines exampleRows4 (by decide)).2

unseal Rat.add Rat.sub Rat.mul Rat.inv in
/-- The expiry set `poll_once` selects is computed from the strike-windowed
table, not from the full normalized chain: with spot 24310 the 2025-02-27
expiry only occurs at strike 30000, outside the window, so the pass's expiry
set misses it while the selector over the full normalized chain keeps it. -/
theorem poll_once_expiries_not_from_full_chain :
    (poll_once (some cexRaw) 24310 "2025-01-02 09:15:00" 0 st0).1.expiryList
      ≠ get_nearest_expiries (process_option_chain cexRaw) := by
  decide

/-- C6 (amended): in every pipeline pass the selected expiry set equals the
expiry selector applied to the distinct expiry dates of the pass's
strike-windowed (ATM-filtered) normalized chain — so it is independent of any
prior pass's state, but not of the window filtering. -/
theorem poll_once_expiries_spec (raw : List RawRow) (spotF : ℚ) (now : String)
    (nowT : Nat) (st st' : AppState) (h : raw ≠ []) :
    (poll_once (some raw) spotF now nowT st).1.expiryList
      = get_nearest_expiries (filter_atm_range (process_option_chain raw) spotF)
    ∧ (poll_once (some raw) spotF now nowT st).1.expiryList
      = (poll_once (some raw) spotF now nowT st').1.expiryList := by
  have hrun : ∀ s : AppState,
      (poll_once (some raw) spotF now nowT s).1.expiryList
        = get_nearest_expiries (filter_atm_range (process_option_chain raw) spotF) := by
    intro s
    simp only [poll_once, poll_once_traced, if_neg h]
    rfl
  exact ⟨hrun st, (hrun st).trans (hrun st').symm⟩

unseal Rat.add Rat.sub Rat.mul Rat.inv in
theorem poll_once_expiries_spec_witness :
    (poll_once (some cexRaw) 24310 "2025-01-02 09:15:00" 0 st0).1.expiryList
      = get_nearest_expiries (filter_atm_range (process_option_chain cexRaw) 24310)
    ∧ (poll_once (some cexRaw) 24310 "2025-01-02 09:15:00" 0 st0).1.expiryList
      = (poll_once (some cexRaw) 24310 "2025-01-02 09:15:00" 0 stAlt).1.expiryList :=
  poll_once_expiries_spec cexRaw 24310 "2025-01-02 09:15:00" 0 st0 stAlt (by decide)

/-- C10: a successful pass performs its two durable writes in the order
signal log first, snapshot second; at the point between them — where a pass
that fails before or during the snapshot write stops — the newly appended
signals are already durable while the durable snapshot still holds the
previous pass's table. -/
theorem poll_once_signals_durable_before_snapshot (raw : List RawRow) (spotF : ℚ)
    (now : String) (nowT : Nat) (st : AppState) (h : raw ≠ []) :
    (poll_once_traced (some raw) spotF now nowT st).2 =
      [PollEvent.signalsDiskWrite
          (detect_signals now (pollCompute raw spotF st).2 st.signalsMem),
        PollEvent.snapshotDiskWrite (pollCompute raw spotF st).2]
    ∧ (pollSignalsStage now (pollCompute raw spotF st)).1.1.signalsDisk
        = detect_signals now (pollCompute raw spotF st).2 st.signalsMem
    ∧ (pollSignalsStage now (pollCompute raw spotF st)).1.1.snapshotDisk
        = st.snapshotDisk
    ∧ (poll_once (some raw) spotF now nowT st).1.snapshotDisk
        = (pollCompute raw spotF st).2
    ∧ (poll_once (some raw) spotF now nowT st).1.signalsDisk
        = detect_signals now (pollCompute raw spotF st).2 st.signalsMem := by
  refine ⟨?_, rfl, rfl, ?_, ?_⟩
  · simp only [poll_once_traced, if_neg h]
    rfl
  · simp only [poll_once, poll_once_traced, if_neg h]
    rfl
  · simp only [poll_once, poll_once_traced, if_neg h]
    rfl

unseal Rat.add Rat.sub Rat.mul Rat.inv in
theorem poll_once_signals_durable_before_snapshot_witness :
    (poll_once_traced (some cexRaw) 24310 "2025-01-02 09:15:00" 0 st0).2 =
      [PollEvent.signalsDiskWrite
          (detect_signals "2025-01-02 09:15:00" (pollCompute cexRaw 24310 st0).2
            st0.signalsMem),
        PollEvent.snapshotDiskWrite (pollCompute cexRaw 24310 st0).2] :=
  (poll_once_signals_durable_before_snapshot cexRaw 24310 "2025-01-02 09:15:00" 0 st0
    (by decide)).1

end Trr
